import Mathlib

/-!
Verification development for the materialized-view planner of the
calhacks25 repository. The Rust sources under src/src (planner.rs, mv.rs,
query_handler.rs, hardware.rs) are shallowly embedded below: serde_json
values become the inductive JVal, HashMap and HashSet become association
lists and plain lists, i64 becomes Int, and f64 cost arithmetic is
idealized as exact rational arithmetic. Rust panics are modelled as none
in an Option result. Uppercasing and lowercasing are modelled on basic
latin letters, matching every op string the planner handles.
-/

namespace CalPlanner

/-- ASCII uppercase of a string, character by character (embedding of the
Rust to_uppercase on the op strings the planner uses). -/
def strUpper (s : String) : String :=
  ⟨s.data.map Char.toUpper⟩

/-- ASCII lowercase of a string, character by character. -/
def strLower (s : String) : String :=
  ⟨s.data.map Char.toLower⟩

/-- Whether the first list of characters starts the second. -/
def isPrefixCL : List Char → List Char → Bool
  | [], _ => true
  | _ :: _, [] => false
  | a :: as, b :: bs => a == b && isPrefixCL as bs

/-- Whether pat occurs as a contiguous run inside s (embedding of the Rust
str contains for a nonempty pattern). -/
def containsCL (pat : List Char) : List Char → Bool
  | [] => isPrefixCL pat []
  | c :: rest => isPrefixCL pat (c :: rest) || containsCL pat rest

/-- Embedding of the Rust str contains. -/
def strContains (s pat : String) : Bool :=
  containsCL pat.data s.data

/-- Fuelled splitter on character lists: cuts at every occurrence of sep,
left to right, non-overlapping. The fuel is structural and one unit is
spent per character, so length s + 1 fuel always suffices. -/
def splitOnCLAux (sep : List Char) : Nat → List Char → List Char → List (List Char)
  | 0, _, acc => [acc.reverse]
  | _ + 1, [], acc => [acc.reverse]
  | fuel + 1, c :: rest, acc =>
    if isPrefixCL sep (c :: rest) then
      acc.reverse :: splitOnCLAux sep fuel ((c :: rest).drop sep.length) []
    else
      splitOnCLAux sep fuel rest (c :: acc)

/-- Embedding of the Rust str split collected into a vector of parts. -/
def strSplitOn (s sep : String) : List String :=
  if sep.data.isEmpty then [s]
  else (splitOnCLAux sep.data (s.data.length + 1) s.data []).map (fun l => ⟨l⟩)

/-- Embedding of serde_json::Value. JSON numbers are restricted to the
integers, which covers every number the query workload contains. -/
inductive JVal where
  | str : String → JVal
  | num : Int → JVal
  | arr : List JVal → JVal
  | obj : List (String × JVal) → JVal
  | null : JVal

/-- First-match association-list lookup: the embedding of HashMap get (keys
in the maps the planner builds are unique). -/
def alookup {α : Type} : List (String × α) → String → Option α
  | [], _ => none
  | (k2, v) :: rest, k => if k2 = k then some v else alookup rest k

/-- Embedding of Value::get on an object (None on any other variant). -/
def JVal.getField : JVal → String → Option JVal
  | .obj fields, k => alookup fields k
  | _, _ => none

/-- Embedding of Value::as_str. -/
def JVal.asStr : JVal → Option String
  | .str s => some s
  | _ => none

/-- Embedding of Value::as_array. -/
def JVal.asArr : JVal → Option (List JVal)
  | .arr l => some l
  | _ => none

/-- Embedding of Value::as_i64. -/
def JVal.asI64 : JVal → Option Int
  | .num n => some n
  | _ => none

mutual

/-- Embedding of the serde_json Display instance (compact JSON), used by
the baseline SQL assembler when it formats a raw value. String escaping is
not modelled; no value the claims touch needs it. -/
def JVal.render : JVal → String
  | .str s => "\"" ++ s ++ "\""
  | .num n => toString n
  | .null => "null"
  | .arr l => "[" ++ JVal.renderListComma l ++ "]"
  | .obj fs => "\x7b" ++ JVal.renderObjComma fs ++ "\x7d"

/-- Comma-joined rendering of array elements. -/
def JVal.renderListComma : List JVal → String
  | [] => ""
  | [x] => JVal.render x
  | x :: y :: rest => JVal.render x ++ "," ++ JVal.renderListComma (y :: rest)

/-- Comma-joined rendering of object fields. -/
def JVal.renderObjComma : List (String × JVal) → String
  | [] => ""
  | [(k, v)] => "\"" ++ k ++ "\":" ++ JVal.render v
  | (k, v) :: p :: rest =>
    "\"" ++ k ++ "\":" ++ JVal.render v ++ "," ++ JVal.renderObjComma (p :: rest)

end

/-- Embedding of mv.rs Agg: an aggregate op with an optional column. -/
structure Agg where
  op : String
  column : Option String
deriving DecidableEq

/-- Embedding of Agg::new: the op is stored uppercased. -/
def Agg.new (op : String) (column : Option String) : Agg :=
  ⟨strUpper op, column⟩

instance : BEq Agg := ⟨fun a b => decide (a = b)⟩

/-- Embedding of mv.rs MaterializedView. The two stats maps and the top-k
maps become association lists; num_rows is None before stats collection. -/
structure MaterializedView where
  name : String
  group_by : List String
  aggs : List Agg
  num_rows : Option Int
  num_distinct : List (String × Int)
  col_to_topk : List (String × List (String × Int))

/-- The dot-to-underscore rewrite of mv.rs metric_col_name, a replace with
the one-character pattern a full stop, so character by character. -/
def replaceDots (s : String) : String :=
  ⟨s.data.map (fun c => if c = '.' then '_' else c)⟩

/-- Embedding of mv.rs metric_col_name. -/
def metric_col_name (op : String) (col : Option String) : String :=
  let op_lower := strLower op
  if op_lower = "count" ∧ (col = none ∨ col = some "*") then "count_rows"
  else op_lower ++ "_" ++ replaceDots (col.getD "rows")

/-- Embedding of Planner::agg_derivable: AVG needs SUM and COUNT of the
same column among the preaggregates; MIN, MAX, SUM and COUNT need the very
same Agg; anything else is not derivable. -/
def agg_derivable (agg : Agg) (mv : MaterializedView) : Bool :=
  if agg.op = "AVG" then
    mv.aggs.contains (Agg.new "SUM" agg.column) &&
      mv.aggs.contains (Agg.new "COUNT" agg.column)
  else if agg.op = "MIN" ∨ agg.op = "MAX" ∨ agg.op = "SUM" ∨ agg.op = "COUNT" then
    mv.aggs.contains agg
  else false

/-- Loop body of Planner::extract_type_filter: the first predicate whose
col is the string type and whose op is eq decides the result (its val as a
string, possibly None), later predicates are never looked at. -/
def extractTypeAux : List JVal → Option String
  | [] => none
  | p :: rest =>
    match (p.getField "col").bind JVal.asStr with
    | some c =>
      if c = "type" then
        match (p.getField "op").bind JVal.asStr with
        | some o => if o = "eq" then (p.getField "val").bind JVal.asStr else extractTypeAux rest
        | none => extractTypeAux rest
      else extractTypeAux rest
    | none => extractTypeAux rest

/-- Embedding of Planner::extract_type_filter. -/
def extract_type_filter (query : JVal) : Option String :=
  match (query.getField "where").bind JVal.asArr with
  | some preds => extractTypeAux preds
  | none => none

/-- Embedding of the name test both Planner::is_mv_usable and
Planner::translate_query perform: the name contains _type_, splits into
exactly two parts around it and the suffix is one of the four event
types. -/
def mvIsTypePartitioned (name : String) : Bool :=
  strContains name "_type_" &&
    (match strSplitOn name "_type_" with
     | [_, t] => t = "click" ∨ t = "impression" ∨ t = "purchase" ∨ t = "serve"
     | _ => false)

/-- Embedding of name.split("_type_").last(), which always yields a part. -/
def mvTypeSuffix (name : String) : String :=
  (strSplitOn name "_type_").getLastD ""

/-- The query group_by list as is_mv_usable and mv_cost both read it:
the group_by field as an array, keeping its string entries. -/
def qGroupByList (query : JVal) : List String :=
  (((query.getField "group_by").bind JVal.asArr).getD []).filterMap JVal.asStr

/-- The where array of the query, empty when absent or not an array. -/
def qWhereList (query : JVal) : List JVal :=
  ((query.getField "where").bind JVal.asArr).getD []

/-- The select array of the query, empty when absent or not an array. -/
def qSelectList (query : JVal) : List JVal :=
  ((query.getField "select").bind JVal.asArr).getD []

/-- Embedding of the star convention in select items: a literal star or a
non-string column value becomes None, any other string stays. -/
def starCol (colVal : JVal) : Option String :=
  colVal.asStr.bind (fun s => if s = "*" then none else some s)

/-- The grouping keys is_mv_usable tests against: the group_by of the MV,
with type put back for a type-partitioned MV (it is implicitly constant
there). -/
def effectiveGroupBy (mv : MaterializedView) : List String :=
  mv.group_by ++ (if mvIsTypePartitioned mv.name then ["type"] else [])

/-- The type gate at the top of Planner::is_mv_usable: a type-partitioned
MV requires the query to filter on exactly its type value. -/
def typePartitionOk (query : JVal) (mv : MaterializedView) : Bool :=
  if mvIsTypePartitioned mv.name then
    match extract_type_filter query with
    | some qt => mvTypeSuffix mv.name = qt
    | none => false
  else true

/-- The group_by subset test of Planner::is_mv_usable. -/
def groupByOk (query : JVal) (mv : MaterializedView) : Bool :=
  (qGroupByList query).all (fun c => (effectiveGroupBy mv).contains c)

/-- The where-column test of Planner::is_mv_usable: predicates without a
string col field are skipped, a type column on a type-partitioned MV is
skipped, every other column must be a grouping key. -/
def whereColsOk (query : JVal) (mv : MaterializedView) : Bool :=
  (qWhereList query).all (fun p =>
    match (p.getField "col").bind JVal.asStr with
    | some c => (c = "type" && mvIsTypePartitioned mv.name) || (effectiveGroupBy mv).contains c
    | none => true)

/-- The select test of Planner::is_mv_usable: bare columns must be
grouping keys and every aggregate field must be derivable. -/
def selectItemsOk (query : JVal) (mv : MaterializedView) : Bool :=
  (qSelectList query).all (fun item =>
    match item with
    | .str c => (effectiveGroupBy mv).contains c
    | .obj fields => fields.all (fun f => agg_derivable (Agg.new f.1 (starCol f.2)) mv)
    | _ => true)

/-- Embedding of Planner::is_mv_usable: the type-partition gate, then the
group_by subset test, the where-column test and the select
column/derivability test, all against the effective grouping keys. -/
def is_mv_usable (query : JVal) (mv : MaterializedView) : Bool :=
  typePartitionOk query mv && groupByOk query mv && whereColsOk query mv &&
    selectItemsOk query mv

/-- The eq branch of Planner::predicate_selectivity for a string literal:
top-k frequency over num_rows when the literal is in the top-k map of the
column, else one over the distinct count, else the default 0.1. The f64
arithmetic of the source is idealized as rational arithmetic. -/
def eqSelCore (mv : MaterializedView) (col s : String) : ℚ :=
  match (alookup mv.col_to_topk col).bind (fun tk => alookup tk s) with
  | some c => (c : ℚ) / ((mv.num_rows.getD 1 : Int) : ℚ)
  | none =>
    match alookup mv.num_distinct col with
    | some d => 1 / (d : ℚ)
    | none => 1 / 10

/-- The whole eq branch, starting from the optional val field: a
non-string or absent literal falls through to the default 0.1. The neq
branch reaches the same code through a rebuilt eq predicate, with an
absent val serialized as null, which is also not a string. -/
def eqBranch (mv : MaterializedView) (col : String) (val : Option JVal) : ℚ :=
  match val.bind JVal.asStr with
  | some s => eqSelCore mv col s
  | none => 1 / 10

/-- Embedding of Planner::predicate_selectivity. -/
def predicate_selectivity (mv : MaterializedView) (pred : JVal) : ℚ :=
  let col := ((pred.getField "col").bind JVal.asStr).getD ""
  let op := ((pred.getField "op").bind JVal.asStr).getD ""
  let val := pred.getField "val"
  if op = "eq" then eqBranch mv col val
  else if op = "in" then
    match val.bind JVal.asArr with
    | some arr =>
      let cnt : Int :=
        match alookup mv.col_to_topk col with
        | some topk =>
          (arr.filterMap JVal.asStr).foldl (fun acc s => acc + (alookup topk s).getD 1) 0
        | none => 0
      (cnt : ℚ) / ((max (mv.num_rows.getD 1) 1 : Int) : ℚ)
    | none => 1 / 10
  else if op = "neq" then 1 - eqBranch mv col val
  else if op = "between" then
    match val.bind JVal.asArr with
    | some arr =>
      if 2 ≤ arr.length then
        match alookup mv.num_distinct col with
        | some d =>
          if col = "day" then (if 100 < d then 1 / 2 else 1 / 5)
          else if col = "hour" ∨ col = "minute" then min ((d : ℚ) / 2) (1 / 2) / (d : ℚ)
          else max ((d : ℚ) / 3) 1 / (d : ℚ)
        | none => 1 / 10
      else 1 / 10
    | none => 1 / 10
  else 1 / 10

/-- The selectivity product over the where array computed at the top of
Planner::mv_cost. -/
def whereSelectivity (query : JVal) (mv : MaterializedView) : ℚ :=
  match (query.getField "where").bind JVal.asArr with
  | some preds => preds.foldl (fun acc p => acc * predicate_selectivity mv p) 1
  | none => 1

/-- num_rows_scanned of Planner::mv_cost: the row count (0 when stats are
absent) scaled by the where selectivity. -/
def rowsScanned (query : JVal) (mv : MaterializedView) : ℚ :=
  ((mv.num_rows.getD 0 : Int) : ℚ) * whereSelectivity query mv

/-- The has_rollup flag of Planner::mv_cost: a non-empty query group_by
with strictly fewer keys than the MV. -/
def hasRollup (query : JVal) (mv : MaterializedView) : Bool :=
  !(qGroupByList query).isEmpty && decide ((qGroupByList query).length < mv.group_by.length)

/-- num_groups of Planner::mv_cost: 1 without rollup, otherwise the
running product over the MV grouping keys missing from the query group_by
of their distinct counts, keys without stats contributing nothing. -/
def rollupGroups (query : JVal) (mv : MaterializedView) : ℚ :=
  let qgb := qGroupByList query
  if qgb.isEmpty then 1
  else if qgb.length < mv.group_by.length then
    mv.group_by.foldl
      (fun acc g =>
        if qgb.contains g then acc
        else
          match alookup mv.num_distinct g with
          | some d => acc * (d : ℚ)
          | none => acc) 1
  else 1

/-- The size-bucket factor at the bottom of Planner::mv_cost. -/
def sizeFactor (mv : MaterializedView) : ℚ :=
  match mv.num_rows with
  | some rows =>
    if rows < 10000 then 9 / 10
    else if rows < 100000 then 95 / 100
    else if rows < 1000000 then 1
    else 105 / 100
  | none => 1

/-- The exact-group-by-match test of Planner::mv_cost: equality of the two
key sets (hash sets in the source, so order and multiplicity blind). -/
def groupSetEq (l1 l2 : List String) : Bool :=
  l1.all (fun c => l2.contains c) && l2.all (fun c => l1.contains c)

/-- Embedding of Planner::mv_cost. The scan and rollup weights that the
source reads from the hardware heuristics are explicit parameters. -/
def mv_cost (wScan wRollup : ℚ) (query : JVal) (mv : MaterializedView) : ℚ :=
  let base := wScan * rowsScanned query mv + wRollup * rollupGroups query mv
  if groupSetEq (qGroupByList query) mv.group_by && !hasRollup query mv then
    base * (8 / 10)
  else base * sizeFactor mv

/-- The adjusted cost of Planner::translate_query: a 0.1 bonus for a
type-partitioned MV matching the type filter of the query, a 100x penalty
for a type-partitioned MV of another type. -/
def adjustedCost (wScan wRollup : ℚ) (query : JVal) (mv : MaterializedView) : ℚ :=
  let cost := mv_cost wScan wRollup query mv
  match extract_type_filter query with
  | some qtype =>
    if mvIsTypePartitioned mv.name then
      if strContains mv.name ("_type_" ++ qtype) then cost * (1 / 10) else cost * 100
    else cost
  | none => cost

/-- Embedding of Planner::predicate_to_sql. A between predicate whose
array has fewer than two elements indexes out of bounds in the source, a
panic, modelled as none. -/
def predicate_to_sql (cond : JVal) : Option String :=
  let col := ((cond.getField "col").bind JVal.asStr).getD ""
  let op := ((cond.getField "op").bind JVal.asStr).getD ""
  let val := cond.getField "val"
  if op = "eq" then
    match val.bind JVal.asStr with
    | some s => some (col ++ " = '" ++ s ++ "'")
    | none => some (col ++ " = " ++ (val.getD JVal.null).render)
  else if op = "neq" then
    match val.bind JVal.asStr with
    | some s => some (col ++ " != '" ++ s ++ "'")
    | none => some (col ++ " != " ++ (val.getD JVal.null).render)
  else if op = "between" then
    match val.bind JVal.asArr with
    | some arr =>
      match arr with
      | low :: high :: _ =>
        some (col ++ " BETWEEN '" ++ (low.asStr.getD "") ++ "' AND '" ++
          (high.asStr.getD "") ++ "'")
      | _ => none
    | none => some ""
  else if op = "in" then
    match val.bind JVal.asArr with
    | some arr =>
      some (col ++ " IN (" ++
        String.intercalate ", " (arr.map (fun v => "'" ++ (v.asStr.getD "") ++ "'")) ++ ")")
    | none => some ""
  else some ""

/-- Maps predicate_to_sql over a condition list, left to right, a panic
anywhere aborting the whole (embedding of the map inside the where
builders). -/
def predListToSql : List JVal → Option (List String)
  | [] => some []
  | c :: rest => do
    let s ← predicate_to_sql c
    let others ← predListToSql rest
    pure (s :: others)

/-- Embedding of Planner::where_to_sql: every condition is rendered (empty
renderings included) and joined with AND. -/
def where_to_sql (whereClause : Option JVal) : Option String :=
  match whereClause.bind JVal.asArr with
  | none => some ""
  | some conds => do
    let parts ← predListToSql conds
    pure (if parts.isEmpty then "" else "WHERE " ++ String.intercalate " AND " parts)

/-- The filter_map loop of Planner::where_to_sql_excluding_type: type
predicates are skipped, the rest rendered, empty renderings dropped. -/
def excludingTypeParts : List JVal → Option (List String)
  | [] => some []
  | c :: rest =>
    if ((c.getField "col").bind JVal.asStr) = some "type" then excludingTypeParts rest
    else do
      let s ← predicate_to_sql c
      let others ← excludingTypeParts rest
      pure (if s = "" then others else s :: others)

/-- Embedding of Planner::where_to_sql_excluding_type. -/
def where_to_sql_excluding_type (whereClause : Option JVal) : Option String :=
  match whereClause.bind JVal.asArr with
  | none => some ""
  | some conds => do
    let parts ← excludingTypeParts conds
    pure (if parts.isEmpty then "" else "WHERE " ++ String.intercalate " AND " parts)

/-- Embedding of Planner::group_by_to_sql (query_handler.rs has the same
function verbatim). -/
def group_by_to_sql (groupBy : Option JVal) : String :=
  match groupBy.bind JVal.asArr with
  | some gbArr =>
    if gbArr.isEmpty then ""
    else
      let parts := gbArr.filterMap JVal.asStr
      if parts.isEmpty then "" else "GROUP BY " ++ String.intercalate ", " parts
  | none => ""

/-- Embedding of Planner::compute_agg_alias_expr: the emitted aggregate
expression over the MV metric columns and its output alias. The panic on
an unsupported op is modelled as none. -/
def compute_agg_alias_expr (op : String) (col : Option String) : Option (String × String) :=
  let opUpper := strUpper op
  let opLower := strLower op
  if opUpper = "AVG" then
    let sumCol := metric_col_name "sum" col
    let cntCol := metric_col_name "count" col
    let colStr := col.getD "*"
    some ("SUM(" ++ sumCol ++ ")::DOUBLE / NULLIF(SUM(" ++ cntCol ++ "), 0)",
      opLower ++ "(" ++ colStr ++ ")")
  else if opUpper = "SUM" ∨ opUpper = "COUNT" then
    let mvCol := metric_col_name opUpper (if opUpper = "COUNT" ∧ col = some "*" then none else col)
    let expr := "SUM(" ++ mvCol ++ ")"
    let aliasStr :=
      if opUpper = "COUNT" ∧ col = some "*" then "count_star()"
      else opLower ++ "(" ++ col.getD "*" ++ ")"
    some (expr, aliasStr)
  else if opUpper = "MIN" ∨ opUpper = "MAX" then
    some (opUpper ++ "(" ++ metric_col_name opUpper col ++ ")",
      opLower ++ "(" ++ col.getD "*" ++ ")")
  else none

/-- The aggregate fields of one select object, each becoming an aliased
expression. -/
def aggFieldParts : List (String × JVal) → Option (List String)
  | [] => some []
  | (op, colVal) :: rest => do
    let (expr, aliasStr) ← compute_agg_alias_expr op (starCol colVal)
    let others ← aggFieldParts rest
    pure ((expr ++ " AS \"" ++ aliasStr ++ "\"") :: others)

/-- The select parts loop of Planner::select_over_mv: bare columns pass
through (type is cast to VARCHAR), aggregate objects are rewritten, other
items are ignored. -/
def selectPartsOverMv : List JVal → Option (List String)
  | [] => some []
  | item :: rest => do
    let others ← selectPartsOverMv rest
    match item with
    | .str c =>
      pure ((if c = "type" then "CAST(" ++ c ++ " AS VARCHAR) AS " ++ c else c) :: others)
    | .obj fields => do
      let parts ← aggFieldParts fields
      pure (parts ++ others)
    | _ => pure others

/-- Embedding of Planner::select_over_mv. -/
def select_over_mv (select : Option JVal) : Option String :=
  match select.bind JVal.asArr with
  | none => some "*"
  | some items => do
    let parts ← selectPartsOverMv items
    pure (if parts.isEmpty then "*" else String.intercalate ", " parts)

/-- Embedding of the aggregate rewrite inside Planner::order_by_to_sql:
a col that looks like fn(args) is replaced by the derived expression. -/
def orderItemExpr (colText : String) : Option String :=
  if strContains colText "(" && strContains colText ")" then
    match strSplitOn colText "(" with
    | op :: _ :: _ =>
      let colPart := (colText.drop (op.length + 1)).dropRight 1
      (compute_agg_alias_expr op (some colPart)).map Prod.fst
    | _ => some colText
  else some colText

/-- The item loop of Planner::order_by_to_sql. -/
def orderParts : List JVal → Option (List String)
  | [] => some []
  | o :: rest => do
    let col := ((o.getField "col").bind JVal.asStr).getD ""
    let dir := strUpper (((o.getField "dir").bind JVal.asStr).getD "asc")
    let expr ← orderItemExpr col
    let others ← orderParts rest
    pure ((expr ++ " " ++ dir) :: others)

/-- Embedding of Planner::order_by_to_sql. -/
def order_by_to_sql (orderBy : Option JVal) : Option String :=
  match orderBy.bind JVal.asArr with
  | some obArr =>
    if obArr.isEmpty then some ""
    else do
      let parts ← orderParts obArr
      pure (if parts.isEmpty then "" else "ORDER BY " ++ String.intercalate ", " parts)
  | none => some ""

/-- Embedding of Planner::assemble_sql_for_mv: the rewritten SELECT over
the MV, the MV name as FROM, the WHERE clause with the type predicate
stripped for a name containing the partition marker, then GROUP BY, ORDER
BY and LIMIT. -/
def assemble_sql_for_mv (query : JVal) (mv : MaterializedView) : Option String := do
  let selectSql ← select_over_mv (query.getField "select")
  let whereClause ←
    if strContains mv.name "_type_" then
      where_to_sql_excluding_type (query.getField "where")
    else where_to_sql (query.getField "where")
  let groupBy := group_by_to_sql (query.getField "group_by")
  let orderBy ← order_by_to_sql (query.getField "order_by")
  let sql := "SELECT " ++ selectSql ++ " FROM " ++ mv.name
  let sql := if whereClause = "" then sql else sql ++ " " ++ whereClause
  let sql := if groupBy = "" then sql else sql ++ " " ++ groupBy
  let sql := if orderBy = "" then sql else sql ++ " " ++ orderBy
  let sql :=
    match (query.getField "limit").bind JVal.asI64 with
    | some n => sql ++ " LIMIT " ++ toString n
    | none => sql
  pure sql

/-- Decimal digits of a numeral, most significant first, none when the
list is empty or holds a non-digit. -/
def natOfDigits : List Char → Option Nat
  | [] => none
  | l => l.foldl
      (fun acc c =>
        acc.bind (fun a => if c.isDigit then some (10 * a + (c.toNat - 48)) else none))
      (some 0)

/-- Integer reading of a string: an optional leading minus sign and
decimal digits. The Rust parses the string as f64 and unquotes it when
the fraction is zero; on the integer strings JVal carries the two
agree. -/
def strToIntOpt (s : String) : Option Int :=
  match s.data with
  | [] => none
  | c :: rest =>
    if c = '-' then (natOfDigits rest).map (fun n => -(n : Int))
    else (natOfDigits (c :: rest)).map (fun n => (n : Int))

/-- Embedding of query_handler.rs format_value_for_sql: numbers unquoted,
numeric strings unquoted, other strings single-quoted (restricted to the
integer numbers JVal carries). -/
def format_value_for_sql : JVal → String
  | .num n => toString n
  | .str s =>
    match strToIntOpt s with
    | some n => toString n
    | none => "'" ++ s ++ "'"
  | v => v.render

/-- One condition of query_handler.rs where_to_sql. The between arm
indexes the first two array elements, a panic when absent, modelled as
none. -/
def qhPredToSql (cond : JVal) : Option String :=
  let col := ((cond.getField "col").bind JVal.asStr).getD ""
  let op := ((cond.getField "op").bind JVal.asStr).getD ""
  let val := (cond.getField "val").getD JVal.null
  if op = "eq" then some (col ++ " = '" ++ (val.asStr.getD "") ++ "'")
  else if op = "neq" then some (col ++ " != '" ++ (val.asStr.getD "") ++ "'")
  else if op = "lt" then some (col ++ " < " ++ format_value_for_sql val)
  else if op = "lte" then some (col ++ " <= " ++ format_value_for_sql val)
  else if op = "gt" then some (col ++ " > " ++ format_value_for_sql val)
  else if op = "gte" then some (col ++ " >= " ++ format_value_for_sql val)
  else if op = "between" then
    match val.asArr with
    | some arr =>
      match arr with
      | low :: high :: _ =>
        some (col ++ " BETWEEN '" ++ (low.asStr.getD "") ++ "' AND '" ++
          (high.asStr.getD "") ++ "'")
      | _ => none
    | none => some ""
  else if op = "in" then
    match val.asArr with
    | some arr =>
      some (col ++ " IN (" ++
        String.intercalate ", " (arr.map (fun v => "'" ++ (v.asStr.getD "") ++ "'")) ++ ")")
    | none => some ""
  else some ""

/-- The condition loop of query_handler.rs where_to_sql. -/
def qhPredListToSql : List JVal → Option (List String)
  | [] => some []
  | c :: rest => do
    let s ← qhPredToSql c
    let others ← qhPredListToSql rest
    pure (s :: others)

/-- Embedding of query_handler.rs where_to_sql. -/
def qh_where_to_sql (whereClause : Option JVal) : Option String :=
  match whereClause.bind JVal.asArr with
  | none => some ""
  | some conds => do
    let parts ← qhPredListToSql conds
    pure (if parts.isEmpty then "" else "WHERE " ++ String.intercalate " AND " parts)

/-- Embedding of query_handler.rs select_to_sql: bare columns pass
through; in an aggregate object the loop overwrites, so the last field
wins; other items become empty strings. -/
def select_to_sql (select : JVal) : String :=
  match select.asArr with
  | none => "*"
  | some items =>
    let parts := items.map (fun item =>
      match item with
      | .str s => s
      | .obj fields =>
        fields.foldl (fun _ f => strUpper f.1 ++ "(" ++ (f.2.asStr.getD "") ++ ")") ""
      | _ => "")
    if parts.isEmpty then "*" else String.intercalate ", " parts

/-- Embedding of query_handler.rs order_by_to_sql: plain col and
direction, no aggregate rewrite. -/
def qh_order_by_to_sql (orderBy : Option JVal) : String :=
  match orderBy.bind JVal.asArr with
  | some obArr =>
    if obArr.isEmpty then ""
    else
      let parts := obArr.map (fun o =>
        (((o.getField "col").bind JVal.asStr).getD "") ++ " " ++
          strUpper (((o.getField "dir").bind JVal.asStr).getD "asc"))
      if parts.isEmpty then "" else "ORDER BY " ++ String.intercalate ", " parts
  | none => ""

/-- The FROM table of query_handler.rs assemble_sql: the from field as a
string, defaulting to the materialized events_table copy of events. -/
def qhFromTable (q : JVal) : String :=
  ((q.getField "from").bind JVal.asStr).getD "events_table"

/-- Embedding of query_handler.rs assemble_sql, the plain baseline
translation of the query IR (the fallback when no MV is usable). The raw
limit value is rendered with the serde Display form, as in the source. -/
def assemble_sql (q : JVal) : Option String := do
  let select := select_to_sql ((q.getField "select").getD (JVal.arr []))
  let whereClause ← qh_where_to_sql (q.getField "where")
  let groupBy := group_by_to_sql (q.getField "group_by")
  let orderBy := qh_order_by_to_sql (q.getField "order_by")
  let sql := "SELECT " ++ select ++ " FROM " ++ qhFromTable q
  let sql := if whereClause = "" then sql else sql ++ " " ++ whereClause
  let sql := if groupBy = "" then sql else sql ++ " " ++ groupBy
  let sql := if orderBy = "" then sql else sql ++ " " ++ orderBy
  let sql :=
    match q.getField "limit" with
    | some v => sql ++ " LIMIT " ++ v.render
    | none => sql
  pure sql

/-- The candidate loop of Planner::translate_query: walks the MV list with
its running index, replacing the best candidate only on a strictly smaller
adjusted cost, so the first of equally cheap usable MVs is kept. The
initial best cost of the source is f64 INFINITY, modelled by none. -/
def selectBestAux (wScan wRollup : ℚ) (query : JVal) :
    List MaterializedView → Nat → Option (Nat × ℚ) → Option (Nat × ℚ)
  | [], _, best => best
  | mv :: rest, i, best =>
    let best' :=
      if is_mv_usable query mv then
        let c := adjustedCost wScan wRollup query mv
        match best with
        | none => some (i, c)
        | some (bi, bc) => if c < bc then some (i, c) else some (bi, bc)
      else best
    selectBestAux wScan wRollup query rest (i + 1) best'

/-- The selection Planner::translate_query makes: the index of the chosen
MV and its adjusted cost, or none when no MV is usable. -/
def select_best (wScan wRollup : ℚ) (query : JVal) (mvs : List MaterializedView) :
    Option (Nat × ℚ) :=
  selectBestAux wScan wRollup query mvs 0 none

/-- A placeholder MV for the impossible out-of-range index. -/
def defaultMV : MaterializedView :=
  ⟨"", [], [], none, [], []⟩

/-- Embedding of Planner::translate_query: SQL against the chosen MV, or
the plain baseline SQL against the events table when no MV is usable. The
source always returns Ok; none here models only a panic inside SQL
assembly. -/
def translate_query (wScan wRollup : ℚ) (query : JVal) (mvs : List MaterializedView) :
    Option String :=
  match select_best wScan wRollup query mvs with
  | some (i, _) => assemble_sql_for_mv query (mvs.getD i defaultMV)
  | none => assemble_sql query

/-- The canonical preaggregate bundle of mv.rs create_mv_registry. -/
def registryAggs : List Agg :=
  [Agg.new "SUM" (some "bid_price"), Agg.new "SUM" (some "total_price"),
   Agg.new "COUNT" none, Agg.new "COUNT" (some "bid_price"),
   Agg.new "COUNT" (some "total_price")]

/-- Lexicographic order on character lists, used to state which of two MV
names sorts first. -/
def charListLt : List Char → List Char → Bool
  | [], [] => false
  | [], _ :: _ => true
  | _ :: _, [] => false
  | a :: as, b :: bs => if a < b then true else if b < a then false else charListLt as bs

theorem char_toNat_ofNat_valid (m : Nat) (h : m.isValidChar) :
    Char.toNat (Char.ofNat m) = m := by
  simp [Char.ofNat, h, Char.ofNatAux, Char.toNat, UInt32.toNat]

theorem charUpper_idem (c : Char) : c.toUpper.toUpper = c.toUpper := by
  by_cases h : c.toNat ≥ 97 ∧ c.toNat ≤ 122
  · have hvc : (c.toNat - 32).isValidChar := by
      unfold Nat.isValidChar
      omega
    have hv := char_toNat_ofNat_valid (c.toNat - 32) hvc
    simp only [Char.toUpper, if_pos h]
    rw [if_neg (by omega)]
  · simp only [Char.toUpper]
    rw [if_neg h, if_neg h]

theorem strUpper_idem (s : String) : strUpper (strUpper s) = strUpper s := by
  unfold strUpper
  apply congrArg String.mk
  show (s.data.map Char.toUpper).map Char.toUpper = s.data.map Char.toUpper
  rw [List.map_map]
  exact List.map_congr_left (fun c _ => charUpper_idem c)

theorem Agg_new_upper (op : String) (c : Option String) :
    Agg.new (strUpper op) c = Agg.new op c := by
  unfold Agg.new
  rw [strUpper_idem]

/-- A registry-style MV carrying the canonical preaggregate bundle, as
mv.rs create_mv_registry builds mv_day_fast. -/
def mv_day_fast : MaterializedView :=
  ⟨"mv_day_fast", ["type", "day"], registryAggs, none, [], []⟩

/-- C10. Case-insensitive aggregate matching: Agg.new stores the
uppercased op, so building an Agg from an op or from its uppercase is the
same, derivability is blind to the case of the query op, and the
lowercase query item sum of bid_price matches the registry preaggregate
SUM(bid_price). -/
theorem C10_case_insensitive_agg_matching :
    (∀ (s : String) (c : Option String), Agg.new s c = Agg.new (strUpper s) c) ∧
    (∀ (s : String) (c : Option String) (mv : MaterializedView),
      agg_derivable (Agg.new s c) mv = agg_derivable (Agg.new (strUpper s) c) mv) ∧
    agg_derivable (Agg.new "sum" (some "bid_price")) mv_day_fast = true := by
  refine ⟨fun s c => (Agg_new_upper s c).symm, fun s c mv => ?_, by decide⟩
  rw [Agg_new_upper]

/-- C3. AVG derivability and rewrite: an aggregate whose op uppercases to
AVG is judged derivable exactly when both SUM and COUNT of the same column
are among the MV preaggregates, and its emitted expression over the MV is
SUM of the sum metric column cast to DOUBLE, divided by NULLIF of the SUM
of the count metric column. -/
theorem C3_avg_derivability_and_rewrite :
    (∀ (op : String), strUpper op = "AVG" → ∀ (c : Option String) (mv : MaterializedView),
      agg_derivable (Agg.new op c) mv =
        (mv.aggs.contains (Agg.new "SUM" c) && mv.aggs.contains (Agg.new "COUNT" c))) ∧
    (∀ (op : String), strUpper op = "AVG" → ∀ (c : String),
      (compute_agg_alias_expr op (some c)).map Prod.fst =
        some ("SUM(" ++ metric_col_name "sum" (some c) ++ ")::DOUBLE / NULLIF(SUM(" ++
          metric_col_name "count" (some c) ++ "), 0)")) := by
  constructor
  · intro op hop c mv
    unfold agg_derivable Agg.new
    rw [hop]
    simp
  · intro op hop c
    unfold compute_agg_alias_expr
    rw [hop]
    simp

/-- Witness for C3 at op avg and column bid_price over an MV carrying the
canonical preaggregates. -/
theorem C3_witness :
    agg_derivable (Agg.new "avg" (some "bid_price")) mv_day_fast =
      (mv_day_fast.aggs.contains (Agg.new "SUM" (some "bid_price")) &&
        mv_day_fast.aggs.contains (Agg.new "COUNT" (some "bid_price"))) ∧
    (compute_agg_alias_expr "avg" (some "bid_price")).map Prod.fst =
      some ("SUM(" ++ metric_col_name "sum" (some "bid_price") ++ ")::DOUBLE / NULLIF(SUM(" ++
        metric_col_name "count" (some "bid_price") ++ "), 0)") :=
  ⟨C3_avg_derivability_and_rewrite.1 "avg" (by decide) (some "bid_price") mv_day_fast,
   C3_avg_derivability_and_rewrite.2 "avg" (by decide) "bid_price"⟩

/-- C9. The metric column for COUNT with no column is count_rows and the
helper has a count_star() branch for an explicit star column, but the
select emission path converts the star to no column before calling the
helper, so the SQL emitted over an MV for a COUNT(*) select item carries
the alias count(*), not count_star() as the specification and the
comments of compute_agg_alias_expr state. -/
theorem C9_count_star_alias_bug :
    select_over_mv (some (JVal.arr [JVal.obj [("count", JVal.str "*")]])) =
      some "SUM(count_rows) AS \"count(*)\"" ∧
    compute_agg_alias_expr "count" (some "*") = some ("SUM(count_rows)", "count_star()") ∧
    compute_agg_alias_expr "count" (starCol (JVal.str "*")) =
      some ("SUM(count_rows)", "count(*)") ∧
    metric_col_name "COUNT" none = "count_rows" ∧
    metric_col_name "sum" (some "bid_price") = "sum_bid_price" := by
  refine ⟨by decide, by decide, by decide, by decide, by decide⟩

/-- The eq selectivity exactly as the specification words it: top-k
frequency over num_rows when the value is in the top-k map of the column,
else one over the distinct count of the column. Stated for comparison
against the source embedding. -/
def specEqSelectivity (mv : MaterializedView) (col v : String) : ℚ :=
  match (alookup mv.col_to_topk col).bind (fun tk => alookup tk v) with
  | some f => (f : ℚ) / ((mv.num_rows.getD 1 : Int) : ℚ)
  | none => 1 / (((alookup mv.num_distinct col).getD 1 : Int) : ℚ)

/-- The in selectivity exactly as the specification words it: the sum of
the eq selectivities of the listed values, capped at 1. Stated for
comparison against the source embedding. -/
def specInSelectivity (mv : MaterializedView) (col : String) (vals : List String) : ℚ :=
  min ((vals.map (specEqSelectivity mv col)).sum) 1

/-- The extra-groups factor exactly as the specification words it: 1 when
the query group_by equals the MV group_by, else the product of the
distinct counts of the MV keys missing from the query group_by. Stated for
comparison against the source embedding. -/
def specExtraGroups (q : JVal) (mv : MaterializedView) : ℚ :=
  if qGroupByList q = mv.group_by then 1
  else ((mv.group_by.filter (fun g => !(qGroupByList q).contains g)).map
    (fun g => (((alookup mv.num_distinct g).getD 1 : Int) : ℚ))).prod

/-- An MV with stats used by the selectivity counterexamples: ten rows,
two distinct values of column c, top-k knowing value a with count five. -/
def mvSel : MaterializedView :=
  ⟨"mv_sel", ["c"], [], some 10, [("c", 2)], [("c", [("a", 5)])]⟩

/-- An in predicate listing the top-k value a three times. -/
def predInAAA : JVal :=
  .obj [("col", .str "c"), ("op", .str "in"),
        ("val", .arr [.str "a", .str "a", .str "a"])]

/-- An in predicate listing the single value x, absent from the top-k. -/
def predInX : JVal :=
  .obj [("col", .str "c"), ("op", .str "in"), ("val", .arr [.str "x"])]

/-- Counterexample to C6: on mvSel the source gives an in list of three
copies of the top-k value selectivity 3/2, above 1 and not capped, where
the specification computes the cap 1; and a value missing from the top-k
contributes 1 over num_rows (1/10), where the specification says 1 over
num_distinct (1/2). -/
theorem C6_counterexample :
    predicate_selectivity mvSel predInAAA = 3 / 2 ∧
    specInSelectivity mvSel "c" ["a", "a", "a"] = 1 ∧
    predicate_selectivity mvSel predInX = 1 / 10 ∧
    specInSelectivity mvSel "c" ["x"] = 1 / 2 := by
  refine ⟨?_, ?_, ?_, ?_⟩
  · simp [predicate_selectivity, mvSel, predInAAA, JVal.getField, alookup, JVal.asStr,
      JVal.asArr, eqBranch, eqSelCore]
    norm_num
  · simp [specInSelectivity, specEqSelectivity, mvSel, alookup]
    norm_num
  · simp [predicate_selectivity, mvSel, predInX, JVal.getField, alookup, JVal.asStr,
      JVal.asArr, eqBranch, eqSelCore]
  · simp [specInSelectivity, specEqSelectivity, mvSel, alookup]
    norm_num

theorem foldl_add_getD (tk : List (String × Int)) :
    ∀ (l : List String) (a : Int),
      l.foldl (fun acc s => acc + (alookup tk s).getD 1) a =
        a + (l.map (fun s => (alookup tk s).getD 1)).sum := by
  intro l
  induction l with
  | nil => simp
  | cons x xs ih =>
    intro a
    simp only [List.foldl_cons, List.map_cons, List.sum_cons]
    rw [ih]
    ring

/-- C6 as the source has it: with a top-k map present for the column, the
in selectivity is the sum, over the string values of the list, of the
top-k count when present and 1 otherwise, divided by num_rows floored at
one, with no cap; with no top-k map for the column it is 0. -/
theorem C6_in_selectivity_amended (mv : MaterializedView) (c : String) (vals : List JVal) :
    (∀ tk, alookup mv.col_to_topk c = some tk →
      predicate_selectivity mv
          (.obj [("col", .str c), ("op", .str "in"), ("val", .arr vals)]) =
        ((((vals.filterMap JVal.asStr).map (fun s => (alookup tk s).getD 1)).sum : Int) : ℚ) /
          ((max (mv.num_rows.getD 1) 1 : Int) : ℚ)) ∧
    (alookup mv.col_to_topk c = none →
      predicate_selectivity mv
          (.obj [("col", .str c), ("op", .str "in"), ("val", .arr vals)]) = 0) := by
  constructor
  · intro tk htk
    simp [predicate_selectivity, JVal.getField, alookup, JVal.asStr, JVal.asArr, htk,
      foldl_add_getD tk (vals.filterMap JVal.asStr) 0]
  · intro htk
    simp [predicate_selectivity, JVal.getField, alookup, JVal.asStr, JVal.asArr, htk]

/-- Witness for C6 as amended, on mvSel with one top-k value and one
unknown value listed, and on a column with no top-k map. -/
theorem C6_in_selectivity_amended_witness :
    predicate_selectivity mvSel
        (.obj [("col", .str "c"), ("op", .str "in"),
               ("val", .arr [.str "a", .str "x"])]) = 3 / 5 ∧
    predicate_selectivity mvSel
        (.obj [("col", .str "z"), ("op", .str "in"),
               ("val", .arr [.str "a"])]) = 0 := by
  constructor
  · have h := (C6_in_selectivity_amended mvSel "c" [.str "a", .str "x"]).1
      [("a", 5)] (by decide)
    rw [h]
    simp [alookup, mvSel, JVal.asStr]
    norm_num
  · exact (C6_in_selectivity_amended mvSel "z" [.str "a"]).2 (by decide)

/-- A query with no group_by field at all. -/
def qNoGroup : JVal := .obj []

/-- An MV with one grouping key a of five distinct values. -/
def mvOneKey : MaterializedView :=
  ⟨"mv_one_key", ["a"], [], some 100, [("a", 5)], [("a", [("x", 1)])]⟩

/-- Counterexample to C5: when the query has no group_by and the MV has a
grouping key, the source leaves the extra-groups factor at 1, while the
specification prescribes the product of the distinct counts of all MV
keys, here 5. -/
theorem C5_counterexample :
    rollupGroups qNoGroup mvOneKey = 1 ∧
    specExtraGroups qNoGroup mvOneKey = 5 ∧
    qGroupByList qNoGroup = [] ∧
    mvOneKey.group_by = ["a"] := by
  refine ⟨?_, ?_, by decide, by decide⟩
  · simp [rollupGroups, qNoGroup, qGroupByList, JVal.getField, alookup]
  · simp [specExtraGroups, qNoGroup, qGroupByList, mvOneKey, JVal.getField, alookup]

theorem foldl_mul_distinct (nd : List (String × Int)) (qgb : List String) :
    ∀ (l : List String) (a : ℚ),
      l.foldl
        (fun acc g =>
          if qgb.contains g then acc
          else
            match alookup nd g with
            | some d => acc * (d : ℚ)
            | none => acc) a =
        a * ((l.filter (fun g => !qgb.contains g)).map
          (fun g => ((alookup nd g).elim 1 (fun d => (d : ℚ))))).prod := by
  intro l
  induction l with
  | nil => simp
  | cons x xs ih =>
    intro a
    by_cases hx : qgb.contains x
    · simp only [List.foldl_cons, List.filter_cons, hx]
      rw [ih]
      simp
    · simp only [List.foldl_cons, List.filter_cons, hx]
      cases hl : alookup nd x with
      | none =>
        rw [ih]
        simp [hl]
      | some d =>
        rw [ih]
        simp [hl]
        ring

/-- C5 as the source has it: the extra-groups factor is 1 whenever the
query group_by is empty or at least as long as the MV group_by (in
particular whenever the two lists are equal), and otherwise it is the
product, over the MV keys missing from the query group_by, of their
distinct counts, keys without stats contributing 1. -/
theorem C5_rollup_groups_amended (q : JVal) (mv : MaterializedView) :
    (qGroupByList q = mv.group_by → rollupGroups q mv = 1) ∧
    rollupGroups q mv =
      (if (qGroupByList q).isEmpty ∨ mv.group_by.length ≤ (qGroupByList q).length then 1
       else ((mv.group_by.filter (fun g => !(qGroupByList q).contains g)).map
         (fun g => ((alookup mv.num_distinct g).elim 1 (fun d => (d : ℚ))))).prod) := by
  have key : rollupGroups q mv =
      (if (qGroupByList q).isEmpty ∨ mv.group_by.length ≤ (qGroupByList q).length then 1
       else ((mv.group_by.filter (fun g => !(qGroupByList q).contains g)).map
         (fun g => ((alookup mv.num_distinct g).elim 1 (fun d => (d : ℚ))))).prod) := by
    unfold rollupGroups
    by_cases he : (qGroupByList q).isEmpty
    · simp [he]
    · by_cases hlt : (qGroupByList q).length < mv.group_by.length
      · rw [if_neg (by simp [he]), if_pos hlt,
          if_neg (by rw [not_or]; exact ⟨by simp [he], by omega⟩)]
        rw [foldl_mul_distinct mv.num_distinct (qGroupByList q) mv.group_by 1]
        rw [one_mul]
      · rw [if_neg (by simp [he]), if_neg hlt, if_pos (by right; omega)]
  refine ⟨fun heq => ?_, key⟩
  rw [key, if_pos (by right; rw [heq])]

/-- Witness for C5 as amended: an exact-match query yields factor 1 and a
coarser query yields the product of the missing distinct counts. -/
theorem C5_rollup_groups_amended_witness :
    rollupGroups (JVal.obj [("group_by", JVal.arr [JVal.str "a"])]) mvOneKey = 1 ∧
    rollupGroups (JVal.obj [("group_by", JVal.arr [JVal.str "b"])])
        ⟨"mv_two_key", ["b", "a"], [], some 100, [("a", 5)], []⟩ = 5 := by
  constructor
  · exact (C5_rollup_groups_amended (JVal.obj [("group_by", JVal.arr [JVal.str "a"])])
      mvOneKey).1 (by decide)
  · have h := (C5_rollup_groups_amended (JVal.obj [("group_by", JVal.arr [JVal.str "b"])])
      ⟨"mv_two_key", ["b", "a"], [], some 100, [("a", 5)], []⟩).2
    rw [h]
    simp [qGroupByList, JVal.getField, alookup, JVal.asStr, JVal.asArr]

/-- One comparison step of the candidate loop: replace the best candidate
only on a strictly smaller cost. -/
def updBest (best : Option (Nat × ℚ)) (x : Nat × ℚ) : Option (Nat × ℚ) :=
  match best with
  | none => some x
  | some (bi, bc) => if x.2 < bc then some x else some (bi, bc)

/-- Folding updBest over a candidate list. -/
def pickFirstMin (best : Option (Nat × ℚ)) : List (Nat × ℚ) → Option (Nat × ℚ)
  | [] => best
  | x :: rest => pickFirstMin (updBest best x) rest

/-- The usable candidates of the MV list, indexed from i0, each with its
adjusted cost. -/
def cands (ws wr : ℚ) (q : JVal) : List MaterializedView → Nat → List (Nat × ℚ)
  | [], _ => []
  | mv :: rest, i =>
    (if is_mv_usable q mv then [(i, adjustedCost ws wr q mv)] else []) ++
      cands ws wr q rest (i + 1)

theorem selectBestAux_eq_pick (ws wr : ℚ) (q : JVal) :
    ∀ (l : List MaterializedView) (i0 : Nat) (best : Option (Nat × ℚ)),
      selectBestAux ws wr q l i0 best = pickFirstMin best (cands ws wr q l i0) := by
  intro l
  induction l with
  | nil => intro i0 best; rfl
  | cons mv rest ih =>
    intro i0 best
    simp only [selectBestAux, cands]
    by_cases hu : is_mv_usable q mv
    · rw [if_pos hu, if_pos hu, List.singleton_append]
      simp only [pickFirstMin]
      rw [ih]
      congr 1
    · rw [if_neg hu, if_neg hu, List.nil_append]
      exact ih (i0 + 1) best

theorem cands_lb (ws wr : ℚ) (q : JVal) :
    ∀ (l : List MaterializedView) (i0 : Nat) (p : Nat × ℚ),
      p ∈ cands ws wr q l i0 → i0 ≤ p.1 := by
  intro l
  induction l with
  | nil => intro i0 p hp; simp [cands] at hp
  | cons mv rest ih =>
    intro i0 p hp
    simp only [cands] at hp
    rcases List.mem_append.mp hp with h1 | h2
    · by_cases hu : is_mv_usable q mv
      · rw [if_pos hu] at h1
        simp at h1
        simp [h1]
      · rw [if_neg hu] at h1
        simp at h1
    · have := ih (i0 + 1) p h2
      omega

theorem cands_sorted (ws wr : ℚ) (q : JVal) :
    ∀ (l : List MaterializedView) (i0 : Nat),
      (cands ws wr q l i0).Pairwise (fun a b => a.1 < b.1) := by
  intro l
  induction l with
  | nil => intro i0; simp [cands]
  | cons mv rest ih =>
    intro i0
    simp only [cands]
    apply List.pairwise_append.mpr
    refine ⟨?_, ih (i0 + 1), ?_⟩
    · by_cases hu : is_mv_usable q mv
      · rw [if_pos hu]; simp
      · rw [if_neg hu]; simp
    · intro a ha b hb
      have hble := cands_lb ws wr q rest (i0 + 1) b hb
      by_cases hu : is_mv_usable q mv
      · rw [if_pos hu] at ha
        simp at ha
        rw [ha]
        simp
        omega
      · rw [if_neg hu] at ha
        simp at ha

theorem cands_mem_of (ws wr : ℚ) (q : JVal) :
    ∀ (l : List MaterializedView) (i0 : Nat) (p : Nat × ℚ),
      p ∈ cands ws wr q l i0 →
      ∃ k, ∃ hk : k < l.length, p.1 = i0 + k ∧
        is_mv_usable q (l.get ⟨k, hk⟩) = true ∧
        p.2 = adjustedCost ws wr q (l.get ⟨k, hk⟩) := by
  intro l
  induction l with
  | nil => intro i0 p hp; simp [cands] at hp
  | cons mv rest ih =>
    intro i0 p hp
    simp only [cands] at hp
    rcases List.mem_append.mp hp with h1 | h2
    · by_cases hu : is_mv_usable q mv
      · rw [if_pos hu] at h1
        simp at h1
        refine ⟨0, by simp, ?_, ?_, ?_⟩ <;> simp [h1, hu]
      · rw [if_neg hu] at h1
        simp at h1
    · obtain ⟨k, hk, hp1, hus, hp2⟩ := ih (i0 + 1) p h2
      exact ⟨k + 1, by simpa using hk, by omega, hus, hp2⟩

theorem cands_of_usable (ws wr : ℚ) (q : JVal) :
    ∀ (l : List MaterializedView) (i0 : Nat) (k : Nat) (hk : k < l.length),
      is_mv_usable q (l.get ⟨k, hk⟩) = true →
      (i0 + k, adjustedCost ws wr q (l.get ⟨k, hk⟩)) ∈ cands ws wr q l i0 := by
  intro l
  induction l with
  | nil => intro i0 k hk; simp at hk
  | cons mv rest ih =>
    intro i0 k hk hus
    simp only [cands]
    apply List.mem_append.mpr
    cases k with
    | zero =>
      left
      simp only [List.get] at hus
      rw [if_pos hus]
      simp
    | succ k0 =>
      right
      have hk0 : k0 < rest.length := by simpa using hk
      have := ih (i0 + 1) k0 hk0 (by simpa using hus)
      have harith : i0 + 1 + k0 = i0 + (k0 + 1) := by omega
      rw [harith] at this
      simpa using this

theorem pick_spec :
    ∀ (cs : List (Nat × ℚ)) (best : Option (Nat × ℚ)) (j : Nat) (c : ℚ),
      pickFirstMin best cs = some (j, c) →
      (best = some (j, c) ∧ ∀ p ∈ cs, c ≤ p.2) ∨
      (∃ pre post, cs = pre ++ (j, c) :: post ∧
        (∀ bi bc, best = some (bi, bc) → c < bc) ∧
        (∀ p ∈ pre, c < p.2) ∧ (∀ p ∈ post, c ≤ p.2)) := by
  intro cs
  induction cs with
  | nil =>
    intro best j c h
    left
    exact ⟨h, by simp⟩
  | cons x rest ih =>
    intro best j c h
    obtain ⟨xi, xc⟩ := x
    simp only [pickFirstMin] at h
    rcases ih (updBest best (xi, xc)) j c h with ⟨hb, hall⟩ | ⟨pre, post, hcs, hbest, hpre, hpost⟩
    · cases best with
      | none =>
        simp only [updBest] at hb
        injection hb with hb2
        injection hb2 with hj hc
        subst hj; subst hc
        right
        refine ⟨[], rest, by simp, ?_, by simp, hall⟩
        intro bi bc hbc
        cases hbc
      | some b =>
        obtain ⟨bi, bc⟩ := b
        simp only [updBest] at hb
        by_cases hx : xc < bc
        · rw [if_pos hx] at hb
          injection hb with hb2
          injection hb2 with hj hc
          subst hj; subst hc
          right
          refine ⟨[], rest, by simp, ?_, by simp, hall⟩
          intro bi2 bc2 hbc2
          injection hbc2 with hb3
          injection hb3 with hbi3 hbc3
          subst hbc3
          exact hx
        · rw [if_neg hx] at hb
          injection hb with hb2
          injection hb2 with hj hc
          subst hj; subst hc
          left
          refine ⟨rfl, ?_⟩
          intro p hp
          rcases List.mem_cons.mp hp with h3 | h4
          · subst h3
            exact le_of_not_lt hx
          · exact hall p h4
    · right
      refine ⟨(xi, xc) :: pre, post, by rw [hcs]; simp, ?_, ?_, hpost⟩
      · intro bi2 bc2 hb
        cases best with
        | none => cases hb
        | some b =>
          obtain ⟨bi0, bc0⟩ := b
          injection hb with hb3
          injection hb3 with hbi3 hbc3
          simp only [updBest] at hbest
          rw [← hbc3]
          by_cases hx : xc < bc0
          · rw [if_pos hx] at hbest
            have h6 := hbest xi xc rfl
            linarith
          · rw [if_neg hx] at hbest
            exact hbest bi0 bc0 rfl
      · intro p hp
        rcases List.mem_cons.mp hp with h3 | h4
        · subst h3
          cases best with
          | none =>
            simp only [updBest] at hbest
            exact hbest xi xc rfl
          | some b =>
            obtain ⟨bi0, bc0⟩ := b
            simp only [updBest] at hbest
            by_cases hx : xc < bc0
            · rw [if_pos hx] at hbest
              exact hbest xi xc rfl
            · rw [if_neg hx] at hbest
              have h6 := hbest bi0 bc0 rfl
              have h5 := le_of_not_lt hx
              calc c < bc0 := h6
                _ ≤ xc := h5
        · exact hpre p h4

theorem select_best_props (ws wr : ℚ) (q : JVal) (mvs : List MaterializedView)
    (j : Nat) (c : ℚ) (h : select_best ws wr q mvs = some (j, c)) :
    ∃ hj : j < mvs.length,
      is_mv_usable q (mvs.get ⟨j, hj⟩) = true ∧
      c = adjustedCost ws wr q (mvs.get ⟨j, hj⟩) ∧
      (∀ k (hk : k < mvs.length), is_mv_usable q (mvs.get ⟨k, hk⟩) = true →
        c ≤ adjustedCost ws wr q (mvs.get ⟨k, hk⟩)) ∧
      (∀ k (hk : k < mvs.length), k < j → is_mv_usable q (mvs.get ⟨k, hk⟩) = true →
        c < adjustedCost ws wr q (mvs.get ⟨k, hk⟩)) := by
  unfold select_best at h
  rw [selectBestAux_eq_pick] at h
  rcases pick_spec _ _ _ _ h with ⟨hb, _⟩ | ⟨pre, post, hcs, _, hpre, hpost⟩
  · cases hb
  · have hpivot : (j, c) ∈ cands ws wr q mvs 0 := by rw [hcs]; simp
    obtain ⟨k, hk, hj1, hus, hc⟩ := cands_mem_of ws wr q mvs 0 (j, c) hpivot
    have hjk : j = k := by simpa using hj1
    subst hjk
    refine ⟨hk, hus, hc, ?_, ?_⟩
    · intro k2 hk2 hus2
      have hmem := cands_of_usable ws wr q mvs 0 k2 hk2 hus2
      rw [hcs] at hmem
      rcases List.mem_append.mp hmem with hin | hin
      · exact le_of_lt (hpre _ hin)
      · rcases List.mem_cons.mp hin with heq | hin2
        · injection heq with h1 h2
          exact le_of_eq h2.symm
        · exact hpost _ hin2
    · intro k2 hk2 hlt hus2
      have hmem := cands_of_usable ws wr q mvs 0 k2 hk2 hus2
      rw [hcs] at hmem
      rcases List.mem_append.mp hmem with hin | hin
      · exact hpre _ hin
      · rcases List.mem_cons.mp hin with heq | hin2
        · injection heq with h1 h2
          omega
        · have hsort := cands_sorted ws wr q mvs 0
          rw [hcs] at hsort
          have h2 := (List.pairwise_append.mp hsort).2.1
          have h3 := (List.pairwise_cons.mp h2).1 _ hin2
          simp at h3
          omega

theorem is_mv_usable_conditions (q : JVal) (mv : MaterializedView)
    (h : is_mv_usable q mv = true) :
    (∀ g ∈ qGroupByList q, g ∈ effectiveGroupBy mv) ∧
    (∀ p ∈ qWhereList q, ∀ colName, (p.getField "col").bind JVal.asStr = some colName →
      colName ∈ effectiveGroupBy mv) ∧
    (∀ s, JVal.str s ∈ qSelectList q → s ∈ effectiveGroupBy mv) ∧
    (∀ fields, JVal.obj fields ∈ qSelectList q → ∀ f ∈ fields,
      agg_derivable (Agg.new f.1 (starCol f.2)) mv = true) := by
  unfold is_mv_usable groupByOk whereColsOk selectItemsOk at h
  simp only [Bool.and_eq_true, List.all_eq_true] at h
  obtain ⟨⟨⟨-, hgroup⟩, hwhere⟩, hselect⟩ := h
  refine ⟨?_, ?_, ?_, ?_⟩
  · intro g hg
    have := hgroup g hg
    simpa [List.contains, List.elem_iff] using this
  · intro p hp colName hcol
    have := hwhere p hp
    rw [hcol] at this
    rcases Bool.or_eq_true .. ▸ this with h1 | h2
    · obtain ⟨hty, htp⟩ := Bool.and_eq_true .. ▸ h1
      have : colName = "type" := by simpa using hty
      rw [this]
      unfold effectiveGroupBy
      rw [if_pos (by simpa using htp)]
      simp
    · simpa [List.contains, List.elem_iff] using h2
  · intro s hs
    have := hselect (JVal.str s) hs
    simpa [List.contains, List.elem_iff] using this
  · intro fields hf f hff
    have h1 := hselect (JVal.obj fields) hf
    simp only [List.all_eq_true] at h1
    exact h1 f hff

/-- C1. Usability soundness: whenever the candidate loop of
translate_query selects an MV, that MV passes is_mv_usable, and hence the
query group_by keys, the where columns and the bare select columns all lie
in the grouping keys of the MV (with type counted for a type-partitioned
MV), and every select aggregate is derivable from its preaggregates. -/
theorem C1_usability_soundness (ws wr : ℚ) (q : JVal) (mvs : List MaterializedView)
    (j : Nat) (c : ℚ) (h : select_best ws wr q mvs = some (j, c)) :
    ∃ hj : j < mvs.length,
      translate_query ws wr q mvs = assemble_sql_for_mv q (mvs.get ⟨j, hj⟩) ∧
      is_mv_usable q (mvs.get ⟨j, hj⟩) = true ∧
      (∀ g ∈ qGroupByList q, g ∈ effectiveGroupBy (mvs.get ⟨j, hj⟩)) ∧
      (∀ p ∈ qWhereList q, ∀ colName, (p.getField "col").bind JVal.asStr = some colName →
        colName ∈ effectiveGroupBy (mvs.get ⟨j, hj⟩)) ∧
      (∀ s, JVal.str s ∈ qSelectList q → s ∈ effectiveGroupBy (mvs.get ⟨j, hj⟩)) ∧
      (∀ fields, JVal.obj fields ∈ qSelectList q → ∀ f ∈ fields,
        agg_derivable (Agg.new f.1 (starCol f.2)) (mvs.get ⟨j, hj⟩) = true) := by
  obtain ⟨hj, hus, -, -, -⟩ := select_best_props ws wr q mvs j c h
  obtain ⟨h1, h2, h3, h4⟩ := is_mv_usable_conditions q _ hus
  refine ⟨hj, ?_, hus, h1, h2, h3, h4⟩
  unfold translate_query
  rw [h]
  dsimp only
  rw [List.getD_eq_getElem mvs defaultMV hj]
  rfl

/-- The empty query used by the selection examples. -/
def qEmpty : JVal := .obj []

/-- An MV named mv_b, listed first in the tie-break counterexample. -/
def mvB : MaterializedView := ⟨"mv_b", [], [], none, [], []⟩

/-- An MV named mv_a, listed second in the tie-break counterexample. -/
def mvA : MaterializedView := ⟨"mv_a", [], [], none, [], []⟩

theorem adjusted_mvA_eq_mvB :
    adjustedCost 1 32 qEmpty mvA = adjustedCost 1 32 qEmpty mvB := rfl

theorem select_best_pair :
    select_best 1 32 qEmpty [mvB, mvA] = some (0, adjustedCost 1 32 qEmpty mvB) := by
  rw [select_best, selectBestAux_eq_pick]
  have hc : cands 1 32 qEmpty [mvB, mvA] 0 =
      [(0, adjustedCost 1 32 qEmpty mvB), (1, adjustedCost 1 32 qEmpty mvA)] := by
    simp [cands, if_pos (show is_mv_usable qEmpty mvB = true from by decide),
      if_pos (show is_mv_usable qEmpty mvA = true from by decide)]
  rw [hc]
  simp only [pickFirstMin, updBest]
  rw [if_neg (by rw [adjusted_mvA_eq_mvB]; exact lt_irrefl _)]

/-- Counterexample to C4: with two usable MVs of equal adjusted cost
listed as mv_b then mv_a, the planner keeps index 0, the MV named mv_b,
although mv_a sorts first lexicographically. -/
theorem C4_counterexample :
    select_best 1 32 qEmpty [mvB, mvA] = some (0, adjustedCost 1 32 qEmpty mvB) ∧
    adjustedCost 1 32 qEmpty mvB = adjustedCost 1 32 qEmpty mvA ∧
    is_mv_usable qEmpty mvB = true ∧
    is_mv_usable qEmpty mvA = true ∧
    mvB.name = "mv_b" ∧ mvA.name = "mv_a" ∧
    charListLt mvA.name.data mvB.name.data = true :=
  ⟨select_best_pair, rfl, by decide, by decide, rfl, rfl, by decide⟩

/-- C4 as the source has it: the selected MV is usable and of minimal
adjusted cost among the usable MVs, and ties are broken by position, the
earliest usable MV of minimal adjusted cost in the list winning, which
keeps the choice deterministic. -/
theorem C4_selection_amended (ws wr : ℚ) (q : JVal) (mvs : List MaterializedView)
    (j : Nat) (c : ℚ) (h : select_best ws wr q mvs = some (j, c)) :
    ∃ hj : j < mvs.length,
      is_mv_usable q (mvs.get ⟨j, hj⟩) = true ∧
      c = adjustedCost ws wr q (mvs.get ⟨j, hj⟩) ∧
      (∀ k (hk : k < mvs.length), is_mv_usable q (mvs.get ⟨k, hk⟩) = true →
        c ≤ adjustedCost ws wr q (mvs.get ⟨k, hk⟩)) ∧
      (∀ k (hk : k < mvs.length), k < j → is_mv_usable q (mvs.get ⟨k, hk⟩) = true →
        c < adjustedCost ws wr q (mvs.get ⟨k, hk⟩)) :=
  select_best_props ws wr q mvs j c h

/-- Witness for C4 as amended at the two-MV tie. -/
theorem C4_selection_amended_witness :
    ∃ hj : 0 < [mvB, mvA].length,
      is_mv_usable qEmpty ([mvB, mvA].get ⟨0, hj⟩) = true ∧
      adjustedCost 1 32 qEmpty mvB =
        adjustedCost 1 32 qEmpty ([mvB, mvA].get ⟨0, hj⟩) ∧
      (∀ k (hk : k < [mvB, mvA].length),
        is_mv_usable qEmpty ([mvB, mvA].get ⟨k, hk⟩) = true →
        adjustedCost 1 32 qEmpty mvB ≤ adjustedCost 1 32 qEmpty ([mvB, mvA].get ⟨k, hk⟩)) ∧
      (∀ k (hk : k < [mvB, mvA].length), k < 0 →
        is_mv_usable qEmpty ([mvB, mvA].get ⟨k, hk⟩) = true →
        adjustedCost 1 32 qEmpty mvB < adjustedCost 1 32 qEmpty ([mvB, mvA].get ⟨k, hk⟩)) :=
  C4_selection_amended 1 32 qEmpty [mvB, mvA] 0 (adjustedCost 1 32 qEmpty mvB)
    select_best_pair

/-- Witness for C1 on a one-element MV list selected for the empty
query. -/
theorem C1_witness :
    ∃ hj : 0 < [mvA].length,
      translate_query 1 32 qEmpty [mvA] = assemble_sql_for_mv qEmpty ([mvA].get ⟨0, hj⟩) ∧
      is_mv_usable qEmpty ([mvA].get ⟨0, hj⟩) = true ∧
      (∀ g ∈ qGroupByList qEmpty, g ∈ effectiveGroupBy ([mvA].get ⟨0, hj⟩)) ∧
      (∀ p ∈ qWhereList qEmpty, ∀ colName,
        (p.getField "col").bind JVal.asStr = some colName →
        colName ∈ effectiveGroupBy ([mvA].get ⟨0, hj⟩)) ∧
      (∀ s, JVal.str s ∈ qSelectList qEmpty → s ∈ effectiveGroupBy ([mvA].get ⟨0, hj⟩)) ∧
      (∀ fields, JVal.obj fields ∈ qSelectList qEmpty → ∀ f ∈ fields,
        agg_derivable (Agg.new f.1 (starCol f.2)) ([mvA].get ⟨0, hj⟩) = true) :=
  C1_usability_soundness 1 32 qEmpty [mvA] 0 (adjustedCost 1 32 qEmpty mvA) rfl

theorem cands_nil_of_unusable (ws wr : ℚ) (q : JVal) :
    ∀ (l : List MaterializedView), (∀ mv ∈ l, is_mv_usable q mv = false) →
      ∀ i0, cands ws wr q l i0 = [] := by
  intro l
  induction l with
  | nil => intro _ i0; rfl
  | cons mv rest ih =>
    intro h i0
    simp only [cands]
    rw [if_neg (by simp [h mv (by simp)]), List.nil_append]
    exact ih (fun m hm => h m (by simp [hm])) (i0 + 1)

theorem select_best_none_of_unusable (ws wr : ℚ) (q : JVal)
    (mvs : List MaterializedView) (h : ∀ mv ∈ mvs, is_mv_usable q mv = false) :
    select_best ws wr q mvs = none := by
  rw [select_best, selectBestAux_eq_pick, cands_nil_of_unusable ws wr q mvs h 0]
  rfl

/-- Counterexample to C7: on the empty query with no usable MV the
fallback SQL reads from events_table, the materialized copy, not from the
events table the specification names. -/
theorem C7_counterexample :
    translate_query 1 32 qEmpty [] = some "SELECT * FROM events_table" ∧
    "SELECT * FROM events_table" ≠ "SELECT * FROM events" :=
  ⟨by decide, by decide⟩

/-- C7 as the source has it: when no MV is usable the translation always
succeeds with the plain baseline SQL of query_handler.rs, whose FROM
table, when the query omits the from field, is events_table (the
materialized copy of events), not events. -/
theorem C7_fallback_amended (ws wr : ℚ) (q : JVal) (mvs : List MaterializedView)
    (h : ∀ mv ∈ mvs, is_mv_usable q mv = false) :
    translate_query ws wr q mvs = assemble_sql q ∧
    ((q.getField "from").bind JVal.asStr = none → qhFromTable q = "events_table") := by
  constructor
  · unfold translate_query
    rw [select_best_none_of_unusable ws wr q mvs h]
  · intro hf
    unfold qhFromTable
    rw [hf]
    rfl

/-- A query grouping by auction_id, which no MV below covers. -/
def qAuction : JVal := .obj [("group_by", .arr [.str "auction_id"])]

/-- Witness for C7 as amended: no usable MV, so the emitted SQL is the
baseline translation, reading from events_table. -/
theorem C7_fallback_amended_witness :
    translate_query 1 32 qAuction [mvA] = assemble_sql qAuction ∧
    ((qAuction.getField "from").bind JVal.asStr = none →
      qhFromTable qAuction = "events_table") :=
  C7_fallback_amended 1 32 qAuction [mvA] (by decide)

theorem extractTypeAux_mem :
    ∀ (preds : List JVal) (v : String), extractTypeAux preds = some v →
      ∃ p ∈ preds, (p.getField "col").bind JVal.asStr = some "type" ∧
        (p.getField "op").bind JVal.asStr = some "eq" ∧
        (p.getField "val").bind JVal.asStr = some v := by
  intro preds
  induction preds with
  | nil => intro v h; cases h
  | cons p rest ih =>
    intro v h
    simp only [extractTypeAux] at h
    cases hcol : (p.getField "col").bind JVal.asStr with
    | none =>
      rw [hcol] at h
      dsimp only at h
      obtain ⟨p2, hp2, hrest⟩ := ih v h
      exact ⟨p2, by simp [hp2], hrest⟩
    | some c =>
      rw [hcol] at h
      dsimp only at h
      by_cases hc : c = "type"
      · rw [if_pos hc] at h
        cases hop : (p.getField "op").bind JVal.asStr with
        | none =>
          rw [hop] at h
          dsimp only at h
          obtain ⟨p2, hp2, hrest⟩ := ih v h
          exact ⟨p2, by simp [hp2], hrest⟩
        | some o =>
          rw [hop] at h
          dsimp only at h
          by_cases ho : o = "eq"
          · rw [if_pos ho] at h
            subst hc
            subst ho
            exact ⟨p, by simp, hcol, hop, h⟩
          · rw [if_neg ho] at h
            obtain ⟨p2, hp2, hrest⟩ := ih v h
            exact ⟨p2, by simp [hp2], hrest⟩
      · rw [if_neg hc] at h
        obtain ⟨p2, hp2, hrest⟩ := ih v h
        exact ⟨p2, by simp [hp2], hrest⟩

theorem excludingTypeParts_eq :
    ∀ conds : List JVal,
      excludingTypeParts conds =
        (predListToSql (conds.filter
            (fun c => !(((c.getField "col").bind JVal.asStr) == some "type")))).map
          (fun parts => parts.filter (fun s => !(s == ""))) := by
  intro conds
  induction conds with
  | nil => rfl
  | cons c rest ih =>
    by_cases hcol : ((c.getField "col").bind JVal.asStr) = some "type"
    · have h1 : excludingTypeParts (c :: rest) = excludingTypeParts rest := by
        simp only [excludingTypeParts]
        rw [if_pos hcol]
      have h2 : (c :: rest).filter
          (fun c => !(((c.getField "col").bind JVal.asStr) == some "type")) =
          rest.filter (fun c => !(((c.getField "col").bind JVal.asStr) == some "type")) := by
        rw [List.filter_cons]
        simp [hcol]
      rw [h1, h2]
      exact ih
    · have hb : (!(((c.getField "col").bind JVal.asStr) == some "type")) = true := by
        simpa using hcol
      have h2 : (c :: rest).filter
          (fun c => !(((c.getField "col").bind JVal.asStr) == some "type")) =
          c :: rest.filter (fun c => !(((c.getField "col").bind JVal.asStr) == some "type")) := by
        rw [List.filter_cons, if_pos hb]
      rw [h2]
      cases hs : predicate_to_sql c with
      | none =>
        have hl : excludingTypeParts (c :: rest) = none := by
          simp only [excludingTypeParts]
          rw [if_neg hcol, hs]
          rfl
        have hr : predListToSql (c :: rest.filter
            (fun c => !(((c.getField "col").bind JVal.asStr) == some "type"))) = none := by
          simp only [predListToSql]
          rw [hs]
          rfl
        rw [hl, hr]
        rfl
      | some str =>
        have hl : excludingTypeParts (c :: rest) =
            (excludingTypeParts rest).map
              (fun others => if str = "" then others else str :: others) := by
          simp only [excludingTypeParts]
          rw [if_neg hcol, hs]
          cases excludingTypeParts rest <;> rfl
        have hr : predListToSql (c :: rest.filter
            (fun c => !(((c.getField "col").bind JVal.asStr) == some "type"))) =
            (predListToSql (rest.filter
              (fun c => !(((c.getField "col").bind JVal.asStr) == some "type")))).map
              (fun os => str :: os) := by
          simp only [predListToSql]
          rw [hs]
          cases predListToSql (rest.filter
            (fun c => !(((c.getField "col").bind JVal.asStr) == some "type"))) <;> rfl
        rw [hl, hr, ih]
        cases hpf : predListToSql (rest.filter
            (fun c => !(((c.getField "col").bind JVal.asStr) == some "type"))) with
        | none => rfl
        | some parts =>
          dsimp only [Option.map]
          congr 1
          rw [List.filter_cons]
          by_cases hse : str = ""
          · simp [hse]
          · simp [hse]

/-- A type-partitioned MV passes is_mv_usable only when the query carries
a predicate type eq v for exactly the type value v in the MV name (the
usability tests then treat type as one of its grouping keys, see
effectiveGroupBy); and the WHERE clause emitted against a
type-partitioned MV is the clause of those non-type predicates whose
rendering is non-empty, in order. Predicates whose op has no arm in
predicate_to_sql (lt, lte, gt, gte, unknown) render empty and are
dropped, which is the subject of the C2 theorem below. -/
theorem typePartitioned_usability_where (mv : MaterializedView)
    (htp : mvIsTypePartitioned mv.name = true) :
    (∀ q, is_mv_usable q mv = true →
      extract_type_filter q = some (mvTypeSuffix mv.name) ∧
      ∃ p ∈ qWhereList q,
        (p.getField "col").bind JVal.asStr = some "type" ∧
        (p.getField "op").bind JVal.asStr = some "eq" ∧
        (p.getField "val").bind JVal.asStr = some (mvTypeSuffix mv.name)) ∧
    (∀ conds : List JVal,
      where_to_sql_excluding_type (some (.arr conds)) =
        (predListToSql (conds.filter
            (fun c => !(((c.getField "col").bind JVal.asStr) == some "type")))).map
          (fun parts =>
            if (parts.filter (fun s => !(s == ""))).isEmpty then ""
            else "WHERE " ++
              String.intercalate " AND " (parts.filter (fun s => !(s == ""))))) := by
  constructor
  · intro q hus
    have hty : typePartitionOk q mv = true := by
      unfold is_mv_usable at hus
      simp only [Bool.and_eq_true] at hus
      exact hus.1.1.1
    unfold typePartitionOk at hty
    rw [if_pos htp] at hty
    cases hext : extract_type_filter q with
    | none => rw [hext] at hty; cases hty
    | some qt =>
      rw [hext] at hty
      have hqt : mvTypeSuffix mv.name = qt := by simpa using hty
      subst hqt
      refine ⟨rfl, ?_⟩
      unfold extract_type_filter at hext
      cases harr : (q.getField "where").bind JVal.asArr with
      | none => rw [harr] at hext; cases hext
      | some preds =>
        rw [harr] at hext
        have hlist : qWhereList q = preds := by
          unfold qWhereList
          rw [harr]
          rfl
        rw [hlist]
        exact extractTypeAux_mem preds _ hext
  · intro conds
    have hstep : where_to_sql_excluding_type (some (.arr conds)) =
        (excludingTypeParts conds).bind (fun parts =>
          some (if parts.isEmpty then ""
            else "WHERE " ++ String.intercalate " AND " parts)) := rfl
    rw [hstep, excludingTypeParts_eq]
    cases hr : predListToSql (conds.filter
        (fun c => !(((c.getField "col").bind JVal.asStr) == some "type"))) with
    | none => rfl
    | some parts => rfl

/-- A type-partitioned MV over day for click events. -/
def mvTP : MaterializedView :=
  ⟨"mv_day_fast_type_click", ["day"], registryAggs, none, [], []⟩

/-- A type filter predicate for click events. -/
def predTypeClick : JVal :=
  .obj [("col", .str "type"), ("op", .str "eq"), ("val", .str "click")]

/-- A day range predicate. -/
def predDayRange : JVal :=
  .obj [("col", .str "day"), ("op", .str "between"),
        ("val", .arr [.str "2024-01-01", .str "2024-01-31"])]

/-- typePartitioned_usability_where on a click-partitioned MV and a query
filtering on type eq click and a day range: the type predicate is
certified present and the emitted WHERE clause keeps the day
predicate. -/
theorem typePartitioned_usability_where_example :
    (extract_type_filter (.obj [("where", .arr [predTypeClick, predDayRange])]) =
      some (mvTypeSuffix mvTP.name) ∧
      ∃ p ∈ qWhereList (.obj [("where", .arr [predTypeClick, predDayRange])]),
        (p.getField "col").bind JVal.asStr = some "type" ∧
        (p.getField "op").bind JVal.asStr = some "eq" ∧
        (p.getField "val").bind JVal.asStr = some (mvTypeSuffix mvTP.name)) ∧
    where_to_sql_excluding_type (some (.arr [predTypeClick, predDayRange])) =
      some "WHERE day BETWEEN '2024-01-01' AND '2024-01-31'" := by
  constructor
  · exact (typePartitioned_usability_where mvTP (by decide)).1
      (.obj [("where", .arr [predTypeClick, predDayRange])]) (by decide)
  · have h := (typePartitioned_usability_where mvTP (by decide)).2 [predTypeClick, predDayRange]
    rw [h]
    decide

/-- A day lower-bound predicate with the gte op, which query_handler.rs
renders but Planner::predicate_to_sql does not. -/
def predDayGte : JVal :=
  .obj [("col", .str "day"), ("op", .str "gte"), ("val", .str "2024-01-01")]

/-- A query filtering on type eq click and day gte 2024-01-01. -/
def qDayGte : JVal := .obj [("where", .arr [predTypeClick, predDayGte])]

/-- C2. The usability gate of the claim holds (the query is judged usable
against the click partition, its type filter matching the name suffix),
but the emission half fails: Planner::predicate_to_sql has arms only for
eq, neq, between and in, so the day gte predicate of the query renders
empty, where_to_sql_excluding_type drops it together with the type
predicate, and the planner emits SQL with no WHERE clause at all, while
the baseline translation of the very same query keeps day >= 2024-01-01.
The spec and the repository result checker demand result equality with
the baseline, so the silently widened scan is a slip in the code. -/
theorem C2_gte_predicate_dropped_bug :
    is_mv_usable qDayGte mvTP = true ∧
    extract_type_filter qDayGte = some (mvTypeSuffix mvTP.name) ∧
    translate_query 1 32 qDayGte [mvTP] = some "SELECT * FROM mv_day_fast_type_click" ∧
    where_to_sql_excluding_type (some (.arr [predTypeClick, predDayGte])) = some "" ∧
    predicate_to_sql predDayGte = some "" ∧
    qhPredToSql predDayGte = some "day >= '2024-01-01'" ∧
    assemble_sql qDayGte =
      some "SELECT * FROM events_table WHERE type = 'click' AND day >= '2024-01-01'" := by
  refine ⟨by decide, by decide, by decide, by decide, by decide, by decide, by decide⟩

/-- The multiplicative factor mv_cost puts on its weighted base: the 0.8
exact-match bonus, or the size bucket of the MV. -/
def costFactor (q : JVal) (mv : MaterializedView) : ℚ :=
  if groupSetEq (qGroupByList q) mv.group_by && !hasRollup q mv then 8 / 10
  else sizeFactor mv

/-- The query of the cost counterexample: an eq filter on c with a top-k
literal, grouped by c. -/
def qC8 : JVal :=
  .obj [("where", .arr [.obj [("col", .str "c"), ("op", .str "eq"), ("val", .str "v")]]),
        ("group_by", .arr [.str "c"])]

/-- Twenty thousand rows, the literal v covering five of them. -/
def mvC8a : MaterializedView :=
  ⟨"mv_c8", ["c"], [], some 20000, [("c", 3)], [("c", [("v", 5)])]⟩

/-- The same MV with thirty thousand rows. -/
def mvC8b : MaterializedView :=
  ⟨"mv_c8", ["c"], [], some 30000, [("c", 3)], [("c", [("v", 5)])]⟩

/-- Counterexample to C8: the top-k eq selectivity is count over num_rows,
so the scan term is the constant top-k count and raising num_rows from
20000 to 30000, all other inputs identical, leaves the cost unchanged at
148/5 instead of strictly increasing it. -/
theorem C8_counterexample :
    mv_cost 1 32 qC8 mvC8a = 148 / 5 ∧
    mv_cost 1 32 qC8 mvC8b = 148 / 5 ∧
    mvC8a.num_rows = some 20000 ∧ mvC8b.num_rows = some 30000 ∧
    mvC8a.name = mvC8b.name ∧ mvC8a.group_by = mvC8b.group_by ∧
    mvC8a.aggs = mvC8b.aggs ∧ mvC8a.num_distinct = mvC8b.num_distinct ∧
    mvC8a.col_to_topk = mvC8b.col_to_topk := by
  refine ⟨?_, ?_, rfl, rfl, rfl, rfl, rfl, rfl, rfl⟩
  · simp [mv_cost, rowsScanned, whereSelectivity, predicate_selectivity, eqBranch,
      eqSelCore, rollupGroups, hasRollup, sizeFactor, groupSetEq, qGroupByList,
      qC8, mvC8a, JVal.getField, alookup, JVal.asStr, JVal.asArr]
    norm_num
  · simp [mv_cost, rowsScanned, whereSelectivity, predicate_selectivity, eqBranch,
      eqSelCore, rollupGroups, hasRollup, sizeFactor, groupSetEq, qGroupByList,
      qC8, mvC8b, JVal.getField, alookup, JVal.asStr, JVal.asArr]
    norm_num

theorem alookup_mem {α : Type} :
    ∀ (l : List (String × α)) (k : String) (v : α), alookup l k = some v → (k, v) ∈ l := by
  intro l
  induction l with
  | nil => intro k v h; cases h
  | cons p rest ih =>
    intro k v h
    obtain ⟨k2, v2⟩ := p
    simp only [alookup] at h
    by_cases hk : k2 = k
    · rw [if_pos hk] at h
      injection h with h2
      subst hk
      subst h2
      simp
    · rw [if_neg hk] at h
      exact List.mem_cons_of_mem _ (ih k v h)

theorem rollupGroups_nonneg (q : JVal) (mv : MaterializedView)
    (hd : ∀ p ∈ mv.num_distinct, (0 : Int) ≤ p.2) : 0 ≤ rollupGroups q mv := by
  unfold rollupGroups
  by_cases he : (qGroupByList q).isEmpty
  · rw [if_pos he]
    norm_num
  · rw [if_neg he]
    by_cases hlt : (qGroupByList q).length < mv.group_by.length
    · rw [if_pos hlt]
      have key : ∀ (l : List String) (a : ℚ), 0 ≤ a →
          0 ≤ l.foldl
            (fun acc g =>
              if (qGroupByList q).contains g then acc
              else
                match alookup mv.num_distinct g with
                | some d => acc * (d : ℚ)
                | none => acc) a := by
        intro l
        induction l with
        | nil => intro a ha; simpa using ha
        | cons g gs ih =>
          intro a ha
          simp only [List.foldl_cons]
          by_cases hg : (qGroupByList q).contains g
          · rw [if_pos hg]
            exact ih a ha
          · rw [if_neg hg]
            cases hl : alookup mv.num_distinct g with
            | none => exact ih a ha
            | some d =>
              apply ih
              have hd2 : (0 : Int) ≤ d := hd (g, d) (alookup_mem _ _ _ hl)
              have : (0 : ℚ) ≤ (d : ℚ) := by exact_mod_cast hd2
              exact mul_nonneg ha this
      exact key mv.group_by 1 (by norm_num)
    · rw [if_neg hlt]
      norm_num

theorem sizeFactor_pos (mv : MaterializedView) : 0 < sizeFactor mv := by
  unfold sizeFactor
  cases mv.num_rows with
  | none => norm_num
  | some r =>
    dsimp only
    split_ifs <;> norm_num

theorem sizeFactor_mono (mv : MaterializedView) (r1 r2 : Int) (h : r1 ≤ r2) :
    sizeFactor {mv with num_rows := some r1} ≤ sizeFactor {mv with num_rows := some r2} := by
  show (if r1 < 10000 then (9 : ℚ) / 10
    else if r1 < 100000 then 95 / 100 else if r1 < 1000000 then 1 else 105 / 100) ≤
    (if r2 < 10000 then (9 : ℚ) / 10
    else if r2 < 100000 then 95 / 100 else if r2 < 1000000 then 1 else 105 / 100)
  split_ifs
  all_goals try norm_num
  all_goals omega

/-- C8 as the source has it: the cost is the linear form
wScan times the scan term plus wRollup times the rollup term, each scaled
by the same factor, so it is linear in either weight; and raising
num_rows, all else equal, strictly increases the cost for a query whose
where clause is absent (selectivity one). With a top-k eq predicate the
scan term is constant in num_rows, so strictness fails in general (see
the counterexample); it holds in the selectivity-free case below. -/
theorem C8_cost_monotonicity_amended :
    (∀ (ws wr : ℚ) (q : JVal) (mv : MaterializedView),
      mv_cost ws wr q mv =
        ws * (rowsScanned q mv * costFactor q mv) +
          wr * (rollupGroups q mv * costFactor q mv)) ∧
    (∀ (ws wr : ℚ) (q : JVal) (mv : MaterializedView) (r1 r2 : Int),
      (q.getField "where").bind JVal.asArr = none →
      (∀ p ∈ mv.num_distinct, (0 : Int) ≤ p.2) →
      0 ≤ r1 → r1 < r2 → 0 < ws → 0 ≤ wr →
      mv_cost ws wr q {mv with num_rows := some r1} <
        mv_cost ws wr q {mv with num_rows := some r2}) := by
  constructor
  · intro ws wr q mv
    unfold mv_cost costFactor
    by_cases hc : (groupSetEq (qGroupByList q) mv.group_by && !hasRollup q mv) = true
    · rw [if_pos hc, if_pos hc]
      ring
    · rw [if_neg hc, if_neg hc]
      ring
  · intro ws wr q mv r1 r2 hw hd h1 h12 hws hwr
    have hsel : ∀ (m : MaterializedView), whereSelectivity q m = 1 := by
      intro m
      unfold whereSelectivity
      rw [hw]
    have hrows1 : rowsScanned q {mv with num_rows := some r1} = (r1 : ℚ) := by
      unfold rowsScanned
      rw [hsel]
      simp
    have hrows2 : rowsScanned q {mv with num_rows := some r2} = (r2 : ℚ) := by
      unfold rowsScanned
      rw [hsel]
      simp
    have hg1 : rollupGroups q {mv with num_rows := some r1} = rollupGroups q mv := rfl
    have hg2 : rollupGroups q {mv with num_rows := some r2} = rollupGroups q mv := rfl
    have hgnn : 0 ≤ rollupGroups q mv := rollupGroups_nonneg q mv hd
    have hr1c : (0 : ℚ) ≤ (r1 : ℚ) := by exact_mod_cast h1
    have hr12 : (r1 : ℚ) < (r2 : ℚ) := by exact_mod_cast h12
    have hbase : ws * (r1 : ℚ) + wr * rollupGroups q mv <
        ws * (r2 : ℚ) + wr * rollupGroups q mv := by
      have := mul_lt_mul_of_pos_left hr12 hws
      linarith
    have hbasenn : 0 ≤ ws * (r1 : ℚ) + wr * rollupGroups q mv := by
      have h2 := mul_nonneg (le_of_lt hws) hr1c
      have h3 := mul_nonneg hwr hgnn
      linarith
    have hcond1 : (groupSetEq (qGroupByList q)
        ({mv with num_rows := some r1} : MaterializedView).group_by &&
        !hasRollup q {mv with num_rows := some r1}) =
        (groupSetEq (qGroupByList q) mv.group_by && !hasRollup q mv) := rfl
    have hcond2 : (groupSetEq (qGroupByList q)
        ({mv with num_rows := some r2} : MaterializedView).group_by &&
        !hasRollup q {mv with num_rows := some r2}) =
        (groupSetEq (qGroupByList q) mv.group_by && !hasRollup q mv) := rfl
    unfold mv_cost
    rw [hrows1, hrows2, hg1, hg2, hcond1, hcond2]
    by_cases hc : (groupSetEq (qGroupByList q) mv.group_by &&
        !hasRollup q mv) = true
    · rw [if_pos hc, if_pos hc]
      have : (0 : ℚ) < 8 / 10 := by norm_num
      exact mul_lt_mul_of_pos_right hbase this
    · rw [if_neg hc, if_neg hc]
      have hf12 : sizeFactor {mv with num_rows := some r1} ≤
          sizeFactor {mv with num_rows := some r2} :=
        sizeFactor_mono mv r1 r2 (le_of_lt h12)
      have hf2 : 0 < sizeFactor {mv with num_rows := some r2} := sizeFactor_pos _
      calc (ws * (r1 : ℚ) + wr * rollupGroups q mv) *
            sizeFactor {mv with num_rows := some r1}
          ≤ (ws * (r1 : ℚ) + wr * rollupGroups q mv) *
            sizeFactor {mv with num_rows := some r2} :=
            mul_le_mul_of_nonneg_left hf12 hbasenn
        _ < (ws * (r2 : ℚ) + wr * rollupGroups q mv) *
            sizeFactor {mv with num_rows := some r2} :=
            mul_lt_mul_of_pos_right hbase hf2

/-- An MV with one distinct-count entry, used by the C8 witness. -/
def mvC8w : MaterializedView := ⟨"mv_w", [], [], none, [("k", 2)], []⟩

/-- Witness for C8 as amended: the linear form at the counterexample
inputs, and strictly increasing cost in num_rows for a where-free
query. -/
theorem C8_cost_monotonicity_amended_witness :
    mv_cost 1 32 qC8 mvC8a =
      1 * (rowsScanned qC8 mvC8a * costFactor qC8 mvC8a) +
        32 * (rollupGroups qC8 mvC8a * costFactor qC8 mvC8a) ∧
    mv_cost 1 32 qEmpty {mvC8w with num_rows := some 0} <
      mv_cost 1 32 qEmpty {mvC8w with num_rows := some 1} :=
  ⟨C8_cost_monotonicity_amended.1 1 32 qC8 mvC8a,
   C8_cost_monotonicity_amended.2 1 32 qEmpty mvC8w 0 1 rfl
     (by decide) (by norm_num) (by norm_num) (by norm_num) (by norm_num)⟩

end CalPlanner
